import Mathlib

/-!
Verification of the recurring time-window evaluator (`PeriodSchedule`) of
the dpn_pyutils repository, module `dpn_pyutils/time/periods.py`.

The module itself is not present under `src/`; only its test suites
(`src/tests/test_time_periods.py`, `src/tests/test_periods_edge_cases.py`)
are.  The definitions below are therefore modelled from the natural-language
spec (`spec.md`, sections 3 and 4), except where the repository's own tests
pin a different concrete behaviour for the missing code; at those points the
model follows the tests, since they are executable code of the repository:

* `test_get_start_end_datetimes_cross_midnight_before_end` (schedule
  22:00 -> 06:00, instant 2023-12-01 02:00) expects
  `start = 2023-11-30 06:00`, i.e. the previous day at the *end* time of
  day, not at the start time of day as spec 4.4 states.
* `test_period_schedule_valid_days_period_across_days` and
  `test_period_schedule_invalid_days_period_across_days` (schedule
  19:15 -> 09:49, valid days {Wed, Thu, Fri}) expect membership at
  `d@00:00` exactly when `d` itself is a valid weekday, i.e. weekday
  validity is evaluated against the instant's own calendar day, not the
  day on which the containing window instance started as spec 4.3 states.

Representation: all datetimes are already localized to the schedule's
timezone and are represented as `Int` seconds of local wall-clock time
since the epoch 1970-01-01 00:00:00 (a Thursday).  The calendar date is
the floor day number `t / 86400`, the wall-clock time of day is
`t % 86400`, and the `%w`-style weekday (0 = Sunday .. 6 = Saturday) of
day `d` is `(d + 4) % 7`.  Timezone conversion, DST transitions and the
sub-second structure of datetimes are outside the model: every query of
the spec operates on the (date, time-of-day) pair in the schedule's zone
(spec 4.2), which this representation captures exactly.
-/

namespace Periods

/-- Number of seconds in a calendar day. -/
def secondsPerDay : Int := 86400

/-- Modelled from the spec: the calendar-date half of
`extract_date_time_from_check_datetime` (spec 4.2) of the missing module
`dpn_pyutils/time/periods.py` — the calendar date (floor day number) of a
localized instant. -/
def dateOf (t : Int) : Int := t / 86400

/-- Modelled from the spec: the wall-clock half of
`extract_date_time_from_check_datetime` (spec 4.2) of the missing module
`dpn_pyutils/time/periods.py` — the time of day, in seconds, of a
localized instant. -/
def timeOf (t : Int) : Int := t % 86400

/-- The `%w`-style weekday (0 = Sunday .. 6 = Saturday) of a day number.
Day 0 is 1970-01-01, a Thursday, hence the offset 4. -/
def weekday (d : Int) : Int := (d + 4) % 7

/-- The localized instant at time-of-day `s` on day `d`
(the model of `datetime.combine` followed by localization). -/
def combine (d : Int) (s : Int) : Int := secondsPerDay * d + s

/-- Modelled from the spec: the `PeriodSchedule` data model (spec 3) of the
missing module `dpn_pyutils/time/periods.py`.  `start_time` and `end_time`
are the parsed wall-clock times of day in seconds; `valid_days_of_week` is
the normalized weekday list.  The construction-time invariants of spec 3
are carried as fields. -/
structure PeriodSchedule where
  start_time : Int
  end_time : Int
  valid_days_of_week : List Int
  start_time_nonneg : 0 ≤ start_time
  start_time_lt : start_time < 86400
  end_time_nonneg : 0 ≤ end_time
  end_time_lt : end_time < 86400
  valid_days_bounded : ∀ d ∈ valid_days_of_week, 0 ≤ d ∧ d ≤ 6

/-- All seven weekdays, the default valid-day set. -/
def ALL_DAYS : List Int := [0, 1, 2, 3, 4, 5, 6]

/-- Result of the valid-day normalization: the normalized list, or the
construction error raised. -/
def isError {ε α : Type} : Except ε α → Bool
  | Except.error _ => true
  | Except.ok _ => false

/-- Modelled from the spec: the `valid_days_of_week` normalization and
validation performed by `PeriodSchedule.__init__` (spec 4.1) of the missing
module `dpn_pyutils/time/periods.py`.  `none` or an empty list defaults to
all seven days; more than 7 entries fails first (error message per
`test_period_schedule_more_than_7_days`), then any entry outside `[0, 6]`
fails (error message per `test_period_schedule_invalid_day_of_week_negative`). -/
def normalize_valid_days_of_week : Option (List Int) → Except String (List Int)
  | none => Except.ok ALL_DAYS
  | some l =>
    if l.length = 0 then Except.ok ALL_DAYS
    else if 7 < l.length then Except.error "Cannot have more than 7 valid days of the week"
    else if l.all (fun d => decide (0 ≤ d) && decide (d ≤ 6)) then Except.ok l
    else Except.error "Invalid cardinality of Day of Week provided"

/-- Modelled from the spec: `get_start_end_datetimes_for_datetime`
(spec 4.4) of the missing module `dpn_pyutils/time/periods.py`, resolving
the concrete window instance for a localized instant.  For a non-crossing
window the instance is `(date@start_time, date@end_time)`.  For a
midnight-crossing window (`end_time <= start_time`) with wall-clock time
at or after `end_time` the instance is
`(date@start_time, (date+1)@end_time)`.  In the remaining branch
(wall-clock time before `end_time`) the spec states
`start = (date-1)@start_time`, but the repository's own test
`test_get_start_end_datetimes_cross_midnight_before_end` pins
`start = (date-1)@end_time` (one day before the end boundary); the model
follows the test. -/
def get_start_end_datetimes_for_datetime (ps : PeriodSchedule) (t : Int) : Int × Int :=
  let d := dateOf t
  let s := timeOf t
  if ps.end_time ≤ ps.start_time then
    if s < ps.end_time then
      (combine (d - 1) ps.end_time, combine d ps.end_time)
    else
      (combine d ps.start_time, combine (d + 1) ps.end_time)
  else
    (combine d ps.start_time, combine d ps.end_time)

/-- Modelled from the spec: `is_in_period` (spec 4.3) of the missing module
`dpn_pyutils/time/periods.py`.  Weekday validity is evaluated against the
instant's own calendar day (as pinned by
`test_period_schedule_valid_days_period_across_days` and
`test_period_schedule_invalid_days_period_across_days`; spec 4.3's
window-start-day rule contradicts those tests), then membership is
`start <= instant < end` on the resolved window instance. -/
def is_in_period (ps : PeriodSchedule) (t : Int) : Bool :=
  if weekday (dateOf t) ∈ ps.valid_days_of_week then
    let se := get_start_end_datetimes_for_datetime ps t
    decide (se.1 ≤ t ∧ t < se.2)
  else false

/-- The start boundary of the window instance anchored at (starting on)
day `d` (spec 4.4 applied at a candidate date). -/
def startBoundary (ps : PeriodSchedule) (d : Int) : Int := combine d ps.start_time

/-- The end boundary of the window instance anchored at day `d`: the next
day's `end_time` for a crossing window, the same day's `end_time`
otherwise (spec 4.4 applied at a candidate date). -/
def endBoundary (ps : PeriodSchedule) (d : Int) : Int :=
  if ps.end_time ≤ ps.start_time then combine (d + 1) ps.end_time
  else combine d ps.end_time

/-- Day-by-day walk: starting at day `d` and moving by `step` each
iteration, return the first day satisfying `p`, giving up when the fuel is
exhausted. -/
def findDay (p : Int → Bool) (step : Int) : Nat → Int → Option Int
  | 0, _ => none
  | Nat.succ fuel, d => if p d then some d else findDay p step fuel (d + step)

/-- The iteration bound of the day-walk searches: one full week plus one
day of candidate dates (spec 4.5 / 9). -/
def SEARCH_FUEL : Nat := 9

/-- Modelled from the spec: the candidate-day walk of
`get_last_start_datetime` (spec 4.5) of the missing module
`dpn_pyutils/time/periods.py` — walk backward from the instant's date and
accept the first day whose weekday is valid and whose instance start
boundary is `<=` the instant, within the bounded number of candidates. -/
def last_start_day (ps : PeriodSchedule) (t : Int) : Option Int :=
  findDay
    (fun d => decide (weekday d ∈ ps.valid_days_of_week ∧ startBoundary ps d ≤ t))
    (-1) SEARCH_FUEL (dateOf t)

/-- Modelled from the spec: the candidate-day walk of
`get_last_end_datetime` (spec 4.5) — walk backward and accept the first
day whose weekday is valid and whose instance end boundary is `<=` the
instant. -/
def last_end_day (ps : PeriodSchedule) (t : Int) : Option Int :=
  findDay
    (fun d => decide (weekday d ∈ ps.valid_days_of_week ∧ endBoundary ps d ≤ t))
    (-1) SEARCH_FUEL (dateOf t)

/-- Modelled from the spec: the candidate-day walk of
`get_next_start_datetime` (spec 4.6) — walk forward and accept the first
day whose weekday is valid and whose instance start boundary is strictly
after the instant. -/
def next_start_day (ps : PeriodSchedule) (t : Int) : Option Int :=
  findDay
    (fun d => decide (weekday d ∈ ps.valid_days_of_week ∧ t < startBoundary ps d))
    1 SEARCH_FUEL (dateOf t)

/-- Modelled from the spec: the candidate-day walk of
`get_next_end_datetime` (spec 4.6) — walk forward and accept the first
day whose weekday is valid and whose instance end boundary is strictly
after the instant. -/
def next_end_day (ps : PeriodSchedule) (t : Int) : Option Int :=
  findDay
    (fun d => decide (weekday d ∈ ps.valid_days_of_week ∧ t < endBoundary ps d))
    1 SEARCH_FUEL (dateOf t)

/-- Modelled from the spec: `get_last_start_datetime` (spec 4.5) of the
missing module `dpn_pyutils/time/periods.py`. -/
def get_last_start_datetime (ps : PeriodSchedule) (t : Int) : Option Int :=
  (last_start_day ps t).map (startBoundary ps)

/-- Modelled from the spec: `get_last_end_datetime` (spec 4.5). -/
def get_last_end_datetime (ps : PeriodSchedule) (t : Int) : Option Int :=
  (last_end_day ps t).map (endBoundary ps)

/-- Modelled from the spec: `get_next_start_datetime` (spec 4.6). -/
def get_next_start_datetime (ps : PeriodSchedule) (t : Int) : Option Int :=
  (next_start_day ps t).map (startBoundary ps)

/-- Modelled from the spec: `get_next_end_datetime` (spec 4.6). -/
def get_next_end_datetime (ps : PeriodSchedule) (t : Int) : Option Int :=
  (next_end_day ps t).map (endBoundary ps)

/-- Modelled from the spec: `get_current_start_datetime` (spec 4.7) — the
start boundary of the window instance resolved for the instant, with no
search loop. -/
def get_current_start_datetime (ps : PeriodSchedule) (t : Int) : Int :=
  (get_start_end_datetimes_for_datetime ps t).1

/-- Modelled from the spec: `get_current_end_datetime` (spec 4.7). -/
def get_current_end_datetime (ps : PeriodSchedule) (t : Int) : Int :=
  (get_start_end_datetimes_for_datetime ps t).2

/-- Modelled from the spec: `duration_since_last_start_datetime`
(spec 4.5), `instant - get_last_start_datetime(instant)`. -/
def duration_since_last_start_datetime (ps : PeriodSchedule) (t : Int) : Option Int :=
  (get_last_start_datetime ps t).map (fun b => t - b)

/-- Modelled from the spec: `duration_since_last_end_datetime` (spec 4.5). -/
def duration_since_last_end_datetime (ps : PeriodSchedule) (t : Int) : Option Int :=
  (get_last_end_datetime ps t).map (fun b => t - b)

/-- Modelled from the spec: `duration_until_next_start_datetime`
(spec 4.6), `get_next_start_datetime(instant) - instant`. -/
def duration_until_next_start_datetime (ps : PeriodSchedule) (t : Int) : Option Int :=
  (get_next_start_datetime ps t).map (fun b => b - t)

/-- Modelled from the spec: `duration_until_next_end_datetime` (spec 4.6). -/
def duration_until_next_end_datetime (ps : PeriodSchedule) (t : Int) : Option Int :=
  (get_next_end_datetime ps t).map (fun b => b - t)

/-- Modelled from the spec: `duration_until_current_start_datetime`
(spec 4.7), the signed duration `get_current_start_datetime(instant) - instant`. -/
def duration_until_current_start_datetime (ps : PeriodSchedule) (t : Int) : Int :=
  get_current_start_datetime ps t - t

/-- Modelled from the spec: `duration_until_current_end_datetime` (spec 4.7). -/
def duration_until_current_end_datetime (ps : PeriodSchedule) (t : Int) : Int :=
  get_current_end_datetime ps t - t

/-! Concrete schedules used in the test suites, for counterexamples and
witnesses. -/

/-- The 22:00 -> 06:00 all-days schedule of
`test_get_start_end_datetimes_cross_midnight_before_end`. -/
def psNight : PeriodSchedule :=
  ⟨79200, 21600, ALL_DAYS, by decide, by decide, by decide, by decide, by decide⟩

/-- The 19:15 -> 09:49 schedule of
`test_period_schedule_valid_days_period_across_days`, restricted here to
the single valid weekday Friday (5). -/
def psTail : PeriodSchedule :=
  ⟨69300, 35340, [5], by decide, by decide, by decide, by decide, by decide⟩

/-- A degenerate schedule whose start and end times of day coincide
(09:00 -> 09:00), all days valid; `end_time <= start_time`, so it is
treated as midnight-crossing. -/
def psDegen : PeriodSchedule :=
  ⟨32400, 32400, ALL_DAYS, by decide, by decide, by decide, by decide, by decide⟩

/-- The 09:00 -> 17:00 all-days schedule used throughout
`test_periods_edge_cases.py`. -/
def psDay : PeriodSchedule :=
  ⟨32400, 61200, ALL_DAYS, by decide, by decide, by decide, by decide, by decide⟩

/-! Sanity checks replicating concrete expectations of the repository's
test suites (day 19692 is 2023-12-01, a Friday). -/

example : weekday 19692 = 5 := by decide

example :
    get_start_end_datetimes_for_datetime psNight (secondsPerDay * 19692 + 7200) =
      (combine 19691 21600, combine 19692 21600) := by decide

example :
    get_start_end_datetimes_for_datetime psNight (secondsPerDay * 19692 + 36000) =
      (combine 19692 79200, combine 19693 21600) := by decide

example : is_in_period psDay (combine 19692 32400) = true := by decide

example : is_in_period psDay (combine 19692 61200) = false := by decide

example : is_in_period psDay (combine 19692 28800) = false := by decide

/-! Helper lemmas about the weekday cycle and the bounded day-walk. -/

/-- Every weekday value occurs among any seven consecutive backward
offsets `a .. a + 6`. -/
theorem exists_weekday_back (d w : Int) (a : Nat) (h0 : 0 ≤ w) (h6 : w ≤ 6) :
    ∃ j : Nat, a ≤ j ∧ j ≤ a + 6 ∧ weekday (d - (j : Int)) = w := by
  refine ⟨a + ((d - a + 4 - w) % 7).toNat, ?_, ?_, ?_⟩
  · omega
  · omega
  · unfold weekday; omega

/-- Every weekday value occurs among any seven consecutive forward
offsets `a .. a + 6`. -/
theorem exists_weekday_fwd (d w : Int) (a : Nat) (h0 : 0 ≤ w) (h6 : w ≤ 6) :
    ∃ j : Nat, a ≤ j ∧ j ≤ a + 6 ∧ weekday (d + (j : Int)) = w := by
  refine ⟨a + ((w - d - a - 4) % 7).toNat, ?_, ?_, ?_⟩
  · omega
  · omega
  · unfold weekday; omega

/-- If some candidate within the fuel bound satisfies the predicate, the
day-walk finds a match. -/
theorem findDay_isSome (p : Int → Bool) (step : Int) :
    ∀ (fuel : Nat) (d : Int) (j : Nat), j < fuel → p (d + (j : Int) * step) = true →
      (findDay p step fuel d).isSome = true := by
  intro fuel
  induction fuel with
  | zero => intro d j hj _; exact absurd hj (Nat.not_lt_zero j)
  | succ n ih =>
    intro d j hj hp
    rw [findDay]
    by_cases hd : p d = true
    · rw [if_pos hd]; rfl
    · rw [if_neg hd]
      cases j with
      | zero => simp only [Nat.cast_zero, zero_mul, add_zero] at hp; exact absurd hp hd
      | succ m =>
        apply ih (d + step) m (by omega)
        have harg : d + step + (m : Int) * step = d + ((m + 1 : Nat) : Int) * step := by
          push_cast; ring
        rw [harg]; exact hp

/-- Any day returned by the day-walk satisfies its predicate. -/
theorem findDay_pred_of_eq_some (p : Int → Bool) (step : Int) :
    ∀ (fuel : Nat) (d r : Int), findDay p step fuel d = some r → p r = true := by
  intro fuel
  induction fuel with
  | zero => intro d r h; simp [findDay] at h
  | succ n ih =>
    intro d r h
    rw [findDay] at h
    by_cases hd : p d = true
    · rw [if_pos hd] at h
      injection h with h
      rw [← h]; exact hd
    · rw [if_neg hd] at h; exact ih _ _ h

/-- The day returned by the day-walk is the first matching candidate: all
earlier candidates fail the predicate. -/
theorem findDay_first_of_eq_some (p : Int → Bool) (step : Int) :
    ∀ (fuel : Nat) (d r : Int), findDay p step fuel d = some r →
      ∃ j : Nat, j < fuel ∧ r = d + (j : Int) * step ∧ p r = true ∧
        ∀ i : Nat, i < j → p (d + (i : Int) * step) = false := by
  intro fuel
  induction fuel with
  | zero => intro d r h; simp [findDay] at h
  | succ n ih =>
    intro d r h
    rw [findDay] at h
    by_cases hd : p d = true
    · rw [if_pos hd] at h
      injection h with h
      refine ⟨0, by omega, by simp [← h], by rw [← h]; exact hd, ?_⟩
      intro i hi; exact absurd hi (Nat.not_lt_zero i)
    · rw [if_neg hd] at h
      obtain ⟨j, hj, hr, hp, hmin⟩ := ih (d + step) r h
      refine ⟨j + 1, by omega, ?_, hp, ?_⟩
      · rw [hr]; push_cast; ring
      · intro i hi
        cases i with
        | zero =>
          simp only [Nat.cast_zero, zero_mul, add_zero]
          simp only [Bool.not_eq_true] at hd; exact hd
        | succ m =>
          have hm := hmin m (by omega)
          have harg : d + ((m + 1 : Nat) : Int) * step = d + step + (m : Int) * step := by
            push_cast; ring
          rw [harg]; exact hm

/-- Conversely, the first matching candidate is what the day-walk returns. -/
theorem findDay_eq_some_of_first (p : Int → Bool) (step : Int) :
    ∀ (fuel : Nat) (d : Int) (j : Nat), j < fuel → p (d + (j : Int) * step) = true →
      (∀ i : Nat, i < j → p (d + (i : Int) * step) = false) →
      findDay p step fuel d = some (d + (j : Int) * step) := by
  intro fuel
  induction fuel with
  | zero => intro d j hj _ _; exact absurd hj (Nat.not_lt_zero j)
  | succ n ih =>
    intro d j hj hp hmin
    rw [findDay]
    cases j with
    | zero =>
      simp only [Nat.cast_zero, zero_mul, add_zero] at hp ⊢
      rw [if_pos hp]
    | succ m =>
      have hd : p d = false := by
        have := hmin 0 (by omega)
        simpa using this
      rw [if_neg (by simp [hd])]
      have harg : d + ((m + 1 : Nat) : Int) * step = d + step + (m : Int) * step := by
        push_cast; ring
      rw [harg]
      apply ih (d + step) m (by omega)
      · rw [← harg]; exact hp
      · intro i hi
        have := hmin (i + 1) (by omega)
        have harg2 : d + ((i + 1 : Nat) : Int) * step = d + step + (i : Int) * step := by
          push_cast; ring
        rw [← harg2]; exact this

/-- The start boundary of any anchored window instance strictly precedes
its end boundary. -/
theorem startBoundary_lt_endBoundary (ps : PeriodSchedule) (d : Int) :
    startBoundary ps d < endBoundary ps d := by
  have h1 := ps.start_time_lt
  have h2 := ps.end_time_nonneg
  unfold startBoundary endBoundary combine secondsPerDay
  by_cases h : ps.end_time ≤ ps.start_time
  · rw [if_pos h]; omega
  · rw [if_neg h]; omega

/-! Success and acceptance lemmas for the four day-walk searches. -/

/-- The backward start search succeeds whenever some weekday is valid. -/
theorem last_start_day_isSome (ps : PeriodSchedule) (t : Int)
    (h : ∃ w, w ∈ ps.valid_days_of_week) : (last_start_day ps t).isSome = true := by
  obtain ⟨w, hw⟩ := h
  obtain ⟨hw0, hw6⟩ := ps.valid_days_bounded w hw
  obtain ⟨j, hj1, hj7, hwd⟩ := exists_weekday_back (dateOf t) w 1 hw0 hw6
  unfold last_start_day
  apply findDay_isSome _ _ _ _ j (by unfold SEARCH_FUEL; omega)
  have harg : dateOf t + (j : Int) * (-1) = dateOf t - (j : Int) := by ring
  simp only [decide_eq_true_eq, harg]
  refine ⟨by rw [hwd]; exact hw, ?_⟩
  have hs1 := ps.start_time_lt
  unfold startBoundary combine secondsPerDay dateOf
  omega

/-- The backward end search succeeds whenever some weekday is valid. -/
theorem last_end_day_isSome (ps : PeriodSchedule) (t : Int)
    (h : ∃ w, w ∈ ps.valid_days_of_week) : (last_end_day ps t).isSome = true := by
  obtain ⟨w, hw⟩ := h
  obtain ⟨hw0, hw6⟩ := ps.valid_days_bounded w hw
  obtain ⟨j, hj2, hj8, hwd⟩ := exists_weekday_back (dateOf t) w 2 hw0 hw6
  unfold last_end_day
  apply findDay_isSome _ _ _ _ j (by unfold SEARCH_FUEL; omega)
  have harg : dateOf t + (j : Int) * (-1) = dateOf t - (j : Int) := by ring
  simp only [decide_eq_true_eq, harg]
  refine ⟨by rw [hwd]; exact hw, ?_⟩
  have he1 := ps.end_time_lt
  unfold endBoundary combine secondsPerDay dateOf
  by_cases hc : ps.end_time ≤ ps.start_time
  · rw [if_pos hc]; omega
  · rw [if_neg hc]; omega

/-- The forward start search succeeds whenever some weekday is valid. -/
theorem next_start_day_isSome (ps : PeriodSchedule) (t : Int)
    (h : ∃ w, w ∈ ps.valid_days_of_week) : (next_start_day ps t).isSome = true := by
  obtain ⟨w, hw⟩ := h
  obtain ⟨hw0, hw6⟩ := ps.valid_days_bounded w hw
  obtain ⟨j, hj1, hj7, hwd⟩ := exists_weekday_fwd (dateOf t) w 1 hw0 hw6
  unfold next_start_day
  apply findDay_isSome _ _ _ _ j (by unfold SEARCH_FUEL; omega)
  simp only [decide_eq_true_eq, mul_one]
  refine ⟨by rw [hwd]; exact hw, ?_⟩
  have hs0 := ps.start_time_nonneg
  unfold startBoundary combine secondsPerDay dateOf
  omega

/-- The forward end search succeeds whenever some weekday is valid. -/
theorem next_end_day_isSome (ps : PeriodSchedule) (t : Int)
    (h : ∃ w, w ∈ ps.valid_days_of_week) : (next_end_day ps t).isSome = true := by
  obtain ⟨w, hw⟩ := h
  obtain ⟨hw0, hw6⟩ := ps.valid_days_bounded w hw
  obtain ⟨j, hj1, hj7, hwd⟩ := exists_weekday_fwd (dateOf t) w 1 hw0 hw6
  unfold next_end_day
  apply findDay_isSome _ _ _ _ j (by unfold SEARCH_FUEL; omega)
  simp only [decide_eq_true_eq, mul_one]
  refine ⟨by rw [hwd]; exact hw, ?_⟩
  have he0 := ps.end_time_nonneg
  unfold endBoundary combine secondsPerDay dateOf
  by_cases hc : ps.end_time ≤ ps.start_time
  · rw [if_pos hc]; omega
  · rw [if_neg hc]; omega

/-- The boundary accepted by the backward start search is at or before the
input instant. -/
theorem last_start_day_le (ps : PeriodSchedule) (t d' : Int)
    (h : last_start_day ps t = some d') : startBoundary ps d' ≤ t := by
  unfold last_start_day at h
  have hp := findDay_pred_of_eq_some _ _ _ _ _ h
  simp only [decide_eq_true_eq] at hp
  exact hp.2

/-- The boundary accepted by the backward end search is at or before the
input instant. -/
theorem last_end_day_le (ps : PeriodSchedule) (t d' : Int)
    (h : last_end_day ps t = some d') : endBoundary ps d' ≤ t := by
  unfold last_end_day at h
  have hp := findDay_pred_of_eq_some _ _ _ _ _ h
  simp only [decide_eq_true_eq] at hp
  exact hp.2

/-- The boundary accepted by the forward start search is strictly after
the input instant. -/
theorem next_start_day_gt (ps : PeriodSchedule) (t d' : Int)
    (h : next_start_day ps t = some d') : t < startBoundary ps d' := by
  unfold next_start_day at h
  have hp := findDay_pred_of_eq_some _ _ _ _ _ h
  simp only [decide_eq_true_eq] at hp
  exact hp.2

/-- The boundary accepted by the forward end search is strictly after the
input instant. -/
theorem next_end_day_gt (ps : PeriodSchedule) (t d' : Int)
    (h : next_end_day ps t = some d') : t < endBoundary ps d' := by
  unfold next_end_day at h
  have hp := findDay_pred_of_eq_some _ _ _ _ _ h
  simp only [decide_eq_true_eq] at hp
  exact hp.2

/-! Claim theorems. -/

/-- C5: for every schedule whose valid-day set contains at least one
weekday, the backward searches `get_last_start_datetime` /
`get_last_end_datetime` and the forward searches `get_next_start_datetime`
/ `get_next_end_datetime` locate a matching boundary within the bounded
day-walk of at most one week plus one day of candidate dates
(`SEARCH_FUEL = 9` candidates); the fuel-bounded walk makes an unbounded
loop structurally impossible. -/
theorem c5_bounded_searches_terminate (ps : PeriodSchedule) (t : Int)
    (h : ∃ w, w ∈ ps.valid_days_of_week) :
    (get_last_start_datetime ps t).isSome = true ∧
    (get_last_end_datetime ps t).isSome = true ∧
    (get_next_start_datetime ps t).isSome = true ∧
    (get_next_end_datetime ps t).isSome = true := by
  refine ⟨?_, ?_, ?_, ?_⟩
  · obtain ⟨d', hd'⟩ := Option.isSome_iff_exists.mp (last_start_day_isSome ps t h)
    simp [get_last_start_datetime, hd']
  · obtain ⟨d', hd'⟩ := Option.isSome_iff_exists.mp (last_end_day_isSome ps t h)
    simp [get_last_end_datetime, hd']
  · obtain ⟨d', hd'⟩ := Option.isSome_iff_exists.mp (next_start_day_isSome ps t h)
    simp [get_next_start_datetime, hd']
  · obtain ⟨d', hd'⟩ := Option.isSome_iff_exists.mp (next_end_day_isSome ps t h)
    simp [get_next_end_datetime, hd']

/-- C5 witness: the 09:00–17:00 all-days schedule at the epoch instant. -/
theorem c5_bounded_searches_terminate_witness :
    (∃ w, w ∈ psDay.valid_days_of_week) ∧
    ((get_last_start_datetime psDay 0).isSome = true ∧
     (get_last_end_datetime psDay 0).isSome = true ∧
     (get_next_start_datetime psDay 0).isSome = true ∧
     (get_next_end_datetime psDay 0).isSome = true) :=
  ⟨⟨0, by decide⟩, c5_bounded_searches_terminate psDay 0 ⟨0, by decide⟩⟩

/-- C7: for every schedule with at least one valid weekday, the four
last/next duration queries succeed and are non-negative: the located last
boundary is at or before the instant and the located next boundary is
strictly after it. -/
theorem c7_last_next_durations_nonneg (ps : PeriodSchedule) (t : Int)
    (h : ∃ w, w ∈ ps.valid_days_of_week) :
    (∃ a, duration_since_last_start_datetime ps t = some a ∧ 0 ≤ a) ∧
    (∃ a, duration_since_last_end_datetime ps t = some a ∧ 0 ≤ a) ∧
    (∃ a, duration_until_next_start_datetime ps t = some a ∧ 0 ≤ a) ∧
    (∃ a, duration_until_next_end_datetime ps t = some a ∧ 0 ≤ a) := by
  refine ⟨?_, ?_, ?_, ?_⟩
  · obtain ⟨d', hd'⟩ := Option.isSome_iff_exists.mp (last_start_day_isSome ps t h)
    refine ⟨t - startBoundary ps d', ?_, ?_⟩
    · simp [duration_since_last_start_datetime, get_last_start_datetime, hd']
    · have := last_start_day_le ps t d' hd'; omega
  · obtain ⟨d', hd'⟩ := Option.isSome_iff_exists.mp (last_end_day_isSome ps t h)
    refine ⟨t - endBoundary ps d', ?_, ?_⟩
    · simp [duration_since_last_end_datetime, get_last_end_datetime, hd']
    · have := last_end_day_le ps t d' hd'; omega
  · obtain ⟨d', hd'⟩ := Option.isSome_iff_exists.mp (next_start_day_isSome ps t h)
    refine ⟨startBoundary ps d' - t, ?_, ?_⟩
    · simp [duration_until_next_start_datetime, get_next_start_datetime, hd']
    · have := next_start_day_gt ps t d' hd'; omega
  · obtain ⟨d', hd'⟩ := Option.isSome_iff_exists.mp (next_end_day_isSome ps t h)
    refine ⟨endBoundary ps d' - t, ?_, ?_⟩
    · simp [duration_until_next_end_datetime, get_next_end_datetime, hd']
    · have := next_end_day_gt ps t d' hd'; omega

/-- C7 witness: the 09:00–17:00 all-days schedule at the instant
18:00 of epoch day 0. -/
theorem c7_last_next_durations_nonneg_witness :
    (∃ w, w ∈ psDay.valid_days_of_week) ∧
    ((∃ a, duration_since_last_start_datetime psDay 64800 = some a ∧ 0 ≤ a) ∧
     (∃ a, duration_since_last_end_datetime psDay 64800 = some a ∧ 0 ≤ a) ∧
     (∃ a, duration_until_next_start_datetime psDay 64800 = some a ∧ 0 ≤ a) ∧
     (∃ a, duration_until_next_end_datetime psDay 64800 = some a ∧ 0 ≤ a)) :=
  ⟨⟨0, by decide⟩, c7_last_next_durations_nonneg psDay 64800 ⟨0, by decide⟩⟩

/-- C1 counterexample: for the 22:00 -> 06:00 schedule at instant
02:00 of epoch day 1 (wall-clock time before the end time of day), the
implementation does not return `start = (date-1)@start_time_of_day` as the
claim states: it returns `(date-1)@end_time_of_day`, as pinned by
`test_get_start_end_datetimes_cross_midnight_before_end`. -/
theorem c1_cross_midnight_resolution_counterexample :
    psNight.end_time ≤ psNight.start_time ∧
    timeOf 93600 < psNight.end_time ∧
    get_start_end_datetimes_for_datetime psNight 93600 ≠
      (combine (dateOf 93600 - 1) psNight.start_time, combine (dateOf 93600) psNight.end_time) := by
  decide

/-- C1 (amended): for a midnight-crossing schedule
(`end_time_of_day <= start_time_of_day`), an instant whose wall-clock time
is strictly before `end_time_of_day` resolves to
`start = (date-1)@end_time_of_day` (one day before the end boundary, per
the repository's tests — not `(date-1)@start_time_of_day`) and
`end = date@end_time_of_day`; an instant whose wall-clock time is at or
after `end_time_of_day` resolves to `start = date@start_time_of_day` and
`end = (date+1)@end_time_of_day` as claimed. -/
theorem c1_cross_midnight_resolution (ps : PeriodSchedule) (t : Int)
    (hcross : ps.end_time ≤ ps.start_time) :
    (timeOf t < ps.end_time →
      get_start_end_datetimes_for_datetime ps t =
        (combine (dateOf t - 1) ps.end_time, combine (dateOf t) ps.end_time)) ∧
    (ps.end_time ≤ timeOf t →
      get_start_end_datetimes_for_datetime ps t =
        (combine (dateOf t) ps.start_time, combine (dateOf t + 1) ps.end_time)) := by
  constructor
  · intro h
    simp only [get_start_end_datetimes_for_datetime]
    rw [if_pos hcross, if_pos h]
  · intro h
    simp only [get_start_end_datetimes_for_datetime]
    rw [if_pos hcross, if_neg (not_lt.mpr h)]

/-- C1 witness: the amended resolution at the 22:00 -> 06:00 schedule
and the instant 02:00 of epoch day 1. -/
theorem c1_cross_midnight_resolution_witness :
    psNight.end_time ≤ psNight.start_time ∧
    ((timeOf 93600 < psNight.end_time →
      get_start_end_datetimes_for_datetime psNight 93600 =
        (combine (dateOf 93600 - 1) psNight.end_time, combine (dateOf 93600) psNight.end_time)) ∧
     (psNight.end_time ≤ timeOf 93600 →
      get_start_end_datetimes_for_datetime psNight 93600 =
        (combine (dateOf 93600) psNight.start_time,
          combine (dateOf 93600 + 1) psNight.end_time))) :=
  ⟨by decide, c1_cross_midnight_resolution psNight 93600 (by decide)⟩

/-- C4 counterexample: for the midnight-crossing 22:00 -> 06:00 schedule,
the instant 23:00 of day 0 resolves to the instance
`(day0@22:00, day1@06:00)`, yet the instant 02:00 of day 1, which lies
inside that very `[start, end)` window, resolves to a different pair —
idempotence within one instance fails across the midnight boundary. -/
theorem c4_idempotence_counterexample :
    get_start_end_datetimes_for_datetime psNight 82800 = (79200, 108000) ∧
    (79200 : Int) ≤ 93600 ∧ (93600 : Int) < 108000 ∧
    get_start_end_datetimes_for_datetime psNight 93600 ≠ (79200, 108000) := by
  decide

/-- C4 (amended): for every non-crossing schedule
(`start_time_of_day < end_time_of_day`), `get_start_end_datetimes_for_datetime`
is idempotent within one window instance: every instant inside the
resolved `[start, end)` window resolves to exactly the same pair.  (For
midnight-crossing schedules the property fails, per the counterexample.) -/
theorem c4_idempotent_within_instance (ps : PeriodSchedule) (t u st en : Int)
    (hnc : ps.start_time < ps.end_time)
    (hse : get_start_end_datetimes_for_datetime ps t = (st, en))
    (h1 : st ≤ u) (h2 : u < en) :
    get_start_end_datetimes_for_datetime ps u = (st, en) := by
  have hns : ¬ ps.end_time ≤ ps.start_time := not_le.mpr hnc
  simp only [get_start_end_datetimes_for_datetime, if_neg hns] at hse ⊢
  rw [Prod.mk.injEq] at hse
  obtain ⟨h3, h4⟩ := hse
  have hs0 := ps.start_time_nonneg
  have he1 := ps.end_time_lt
  have hdate : dateOf u = dateOf t := by
    rw [← h3] at h1
    rw [← h4] at h2
    simp only [combine, secondsPerDay] at h1 h2
    unfold dateOf
    unfold dateOf at h1 h2
    omega
  rw [Prod.mk.injEq, hdate]
  exact ⟨h3, h4⟩

/-- C4 witness: the 09:00 -> 17:00 schedule, the instant 11:06:40 of
day 0 and the later instant 13:53:20 inside the same window. -/
theorem c4_idempotent_within_instance_witness :
    psDay.start_time < psDay.end_time ∧
    get_start_end_datetimes_for_datetime psDay 40000 = (32400, 61200) ∧
    (32400 : Int) ≤ 50000 ∧ (50000 : Int) < 61200 ∧
    get_start_end_datetimes_for_datetime psDay 50000 = (32400, 61200) :=
  ⟨by decide, by decide, by decide, by decide,
    c4_idempotent_within_instance psDay 40000 50000 32400 61200 (by decide) (by decide)
      (by decide) (by decide)⟩

/-- C8: the current-boundary durations equal `boundary - instant` and are
signed: negative exactly when the current-instance boundary is strictly
before the instant, positive exactly when it is strictly after. -/
theorem c8_current_durations_signed (ps : PeriodSchedule) (t : Int) :
    duration_until_current_start_datetime ps t = get_current_start_datetime ps t - t ∧
    duration_until_current_end_datetime ps t = get_current_end_datetime ps t - t ∧
    (duration_until_current_start_datetime ps t < 0 ↔ get_current_start_datetime ps t < t) ∧
    (0 < duration_until_current_start_datetime ps t ↔ t < get_current_start_datetime ps t) ∧
    (duration_until_current_end_datetime ps t < 0 ↔ get_current_end_datetime ps t < t) ∧
    (0 < duration_until_current_end_datetime ps t ↔ t < get_current_end_datetime ps t) := by
  unfold duration_until_current_start_datetime duration_until_current_end_datetime
  refine ⟨rfl, rfl, ?_, ?_, ?_, ?_⟩ <;> omega

/-- C9: the window instance resolved for any instant has its end boundary
strictly after its start boundary, so the signed duration until the
current end always strictly exceeds the signed duration until the current
start. -/
theorem c9_current_window_positive_length (ps : PeriodSchedule) (t : Int) :
    duration_until_current_start_datetime ps t < duration_until_current_end_datetime ps t := by
  have hs1 := ps.start_time_lt
  have he0 := ps.end_time_nonneg
  simp only [duration_until_current_start_datetime, duration_until_current_end_datetime,
    get_current_start_datetime, get_current_end_datetime, get_start_end_datetimes_for_datetime]
  split_ifs <;> (simp only [combine, secondsPerDay]; omega)

/-- Calendar date of the instant at time-of-day `s` on day `d`. -/
theorem dateOf_combine (d s : Int) (h0 : 0 ≤ s) (h1 : s < 86400) :
    dateOf (combine d s) = d := by
  simp only [dateOf, combine, secondsPerDay]; omega

/-- Time of day of the instant at time-of-day `s` on day `d`. -/
theorem timeOf_combine (d s : Int) (h0 : 0 ≤ s) (h1 : s < 86400) :
    timeOf (combine d s) = s := by
  simp only [timeOf, combine, secondsPerDay]; omega

/-- C2 counterexample: the 19:15 -> 09:49 schedule valid only on Friday
(weekday 5).  Epoch day 2 is a Saturday; the instant 00:30 of day 2 lies
in the trailing portion (before the end time of day) of the window
instance that opened on Friday day 1, a valid weekday, yet
`is_in_period` returns `false` because the instant's own calendar day,
Saturday, is not in `valid_days_of_week` — refuting the claim that such
an instant is inside the period. -/
theorem c2_weekday_rule_counterexample :
    psTail.end_time ≤ psTail.start_time ∧
    weekday 1 ∈ psTail.valid_days_of_week ∧
    startBoundary psTail 1 ≤ 174600 ∧ (174600 : Int) < endBoundary psTail 1 ∧
    timeOf 174600 < psTail.end_time ∧
    weekday (dateOf 174600) ∉ psTail.valid_days_of_week ∧
    is_in_period psTail 174600 = false := by
  decide

/-- C2 (amended): for a midnight-crossing schedule, an instant in the
trailing portion of a window (wall-clock time strictly before
`end_time_of_day`) is inside the period exactly when the instant's *own*
calendar day is in `valid_days_of_week`; the weekday of the day on which
the window instance opened plays no role. -/
theorem c2_weekday_of_instant_day (ps : PeriodSchedule) (t : Int)
    (hcross : ps.end_time ≤ ps.start_time) (h : timeOf t < ps.end_time) :
    (is_in_period ps t = true ↔ weekday (dateOf t) ∈ ps.valid_days_of_week) := by
  have hmem_arith : (get_start_end_datetimes_for_datetime ps t).1 ≤ t ∧
      t < (get_start_end_datetimes_for_datetime ps t).2 := by
    simp only [get_start_end_datetimes_for_datetime]
    rw [if_pos hcross, if_pos h]
    have he1 := ps.end_time_lt
    have he0 := ps.end_time_nonneg
    simp only [combine, secondsPerDay]
    unfold dateOf
    unfold timeOf at h
    constructor <;> omega
  simp only [is_in_period]
  by_cases hmem : weekday (dateOf t) ∈ ps.valid_days_of_week
  · rw [if_pos hmem]
    simp only [decide_eq_true_eq]
    exact ⟨fun _ => hmem, fun _ => hmem_arith⟩
  · rw [if_neg hmem]
    simp only [Bool.false_eq_true, false_iff]
    exact hmem

/-- C2 witness: the 19:15 -> 09:49 Friday-only schedule at the instant
00:30 of epoch day 1 (a Friday), in the trailing portion of the window
opened on Thursday. -/
theorem c2_weekday_of_instant_day_witness :
    psTail.end_time ≤ psTail.start_time ∧ timeOf 88200 < psTail.end_time ∧
    (is_in_period psTail 88200 = true ↔ weekday (dateOf 88200) ∈ psTail.valid_days_of_week) :=
  ⟨by decide, by decide, c2_weekday_of_instant_day psTail 88200 (by decide) (by decide)⟩

/-- C3 counterexample: the degenerate 09:00 -> 09:00 all-days schedule is
treated as midnight-crossing (`end_time <= start_time`); the end boundary
of the instance anchored at day 0 coincides with the start boundary of
the next instance, so `is_in_period` at the exact end boundary instant is
`true`, refuting the claim that it is always `false`. -/
theorem c3_boundary_exclusivity_counterexample :
    weekday 0 ∈ psDegen.valid_days_of_week ∧
    is_in_period psDegen (startBoundary psDegen 0) = true ∧
    is_in_period psDegen (endBoundary psDegen 0) = true := by
  decide

/-- C3 (amended): for every schedule whose start and end times of day
differ, and every window instance anchored on a valid weekday,
`is_in_period` is `true` at the exact start boundary instant and `false`
at the exact end boundary instant — membership is
`start <= instant < end`.  (For degenerate schedules with
`start_time_of_day = end_time_of_day` the end boundary coincides with the
next instance's start and the claim fails, per the counterexample.) -/
theorem c3_boundary_inclusivity (ps : PeriodSchedule) (d : Int)
    (hne : ps.start_time ≠ ps.end_time)
    (hvalid : weekday d ∈ ps.valid_days_of_week) :
    is_in_period ps (startBoundary ps d) = true ∧
    is_in_period ps (endBoundary ps d) = false := by
  have hs0 := ps.start_time_nonneg
  have hs1 := ps.start_time_lt
  have he0 := ps.end_time_nonneg
  have he1 := ps.end_time_lt
  constructor
  · have hd := dateOf_combine d ps.start_time hs0 hs1
    have ht := timeOf_combine d ps.start_time hs0 hs1
    simp only [is_in_period, startBoundary]
    rw [hd, if_pos hvalid, decide_eq_true_eq]
    simp only [get_start_end_datetimes_for_datetime, hd, ht]
    by_cases hc : ps.end_time ≤ ps.start_time
    · have hlt : ¬ ps.start_time < ps.end_time := by omega
      rw [if_pos hc, if_neg hlt]
      simp only [combine, secondsPerDay]
      constructor <;> omega
    · rw [if_neg hc]
      simp only [combine, secondsPerDay]
      constructor <;> omega
  · by_cases hc : ps.end_time ≤ ps.start_time
    · have hd := dateOf_combine (d + 1) ps.end_time he0 he1
      have ht := timeOf_combine (d + 1) ps.end_time he0 he1
      have hEB : endBoundary ps d = combine (d + 1) ps.end_time := by
        unfold endBoundary; rw [if_pos hc]
      have hgse : get_start_end_datetimes_for_datetime ps (combine (d + 1) ps.end_time) =
          (combine (d + 1) ps.start_time, combine (d + 1 + 1) ps.end_time) := by
        simp only [get_start_end_datetimes_for_datetime, hd, ht, lt_self_iff_false,
          if_false]
        rw [if_pos hc]
      rw [hEB]
      simp only [is_in_period, hgse, hd]
      by_cases hmem : weekday (d + 1) ∈ ps.valid_days_of_week
      · rw [if_pos hmem, decide_eq_false_iff_not]
        intro hAB
        have hA := hAB.1
        simp only [combine, secondsPerDay] at hA
        omega
      · rw [if_neg hmem]
    · have hd := dateOf_combine d ps.end_time he0 he1
      have ht := timeOf_combine d ps.end_time he0 he1
      have hEB : endBoundary ps d = combine d ps.end_time := by
        unfold endBoundary; rw [if_neg hc]
      have hgse : get_start_end_datetimes_for_datetime ps (combine d ps.end_time) =
          (combine d ps.start_time, combine d ps.end_time) := by
        simp only [get_start_end_datetimes_for_datetime, hd, ht, lt_self_iff_false,
          if_false]
        rw [if_neg hc]
      rw [hEB]
      simp only [is_in_period, hgse, hd]
      by_cases hmem : weekday d ∈ ps.valid_days_of_week
      · rw [if_pos hmem, decide_eq_false_iff_not]
        intro hAB
        have hB := hAB.2
        simp only [combine, secondsPerDay] at hB
        omega
      · rw [if_neg hmem]

/-- C3 witness: the 09:00 -> 17:00 all-days schedule and the instance on
epoch day 0 (a Thursday). -/
theorem c3_boundary_inclusivity_witness :
    psDay.start_time ≠ psDay.end_time ∧
    weekday 0 ∈ psDay.valid_days_of_week ∧
    (is_in_period psDay (startBoundary psDay 0) = true ∧
     is_in_period psDay (endBoundary psDay 0) = false) :=
  ⟨by decide, by decide, c3_boundary_inclusivity psDay 0 (by decide) (by decide)⟩

/-- C6: the valid-day normalization defaults `none` and the empty list to
all seven days and succeeds, and otherwise fails with a configuration
error exactly when the list has more than 7 entries or contains an entry
outside `[0, 6]`. -/
theorem c6_valid_days_validation :
    normalize_valid_days_of_week none = Except.ok ALL_DAYS ∧
    normalize_valid_days_of_week (some []) = Except.ok ALL_DAYS ∧
    ∀ l : List Int,
      (isError (normalize_valid_days_of_week (some l)) = true ↔
        l ≠ [] ∧ (7 < l.length ∨ ∃ x ∈ l, x < 0 ∨ 6 < x)) := by
  refine ⟨rfl, rfl, fun l => ?_⟩
  simp only [normalize_valid_days_of_week]
  by_cases h1 : l.length = 0
  · have hl : l = [] := List.length_eq_zero.mp h1
    subst hl
    simp [isError]
  · rw [if_neg h1]
    have hne : l ≠ [] := fun hl => h1 (by simp [hl])
    by_cases h2 : 7 < l.length
    · rw [if_pos h2]
      simp [isError, hne, h2]
    · rw [if_neg h2]
      by_cases h3 : l.all (fun d => decide (0 ≤ d) && decide (d ≤ 6)) = true
      · rw [if_pos h3]
        simp only [isError]
        constructor
        · intro hcontr; exact absurd hcontr (by simp)
        · rintro ⟨-, h7 | ⟨x, hx, hx2⟩⟩
          · exact absurd h7 h2
          · rw [List.all_eq_true] at h3
            have hb := h3 x hx
            simp only [Bool.and_eq_true, decide_eq_true_eq] at hb
            omega
      · rw [if_neg h3]
        simp only [isError, true_iff]
        refine ⟨hne, Or.inr ?_⟩
        rw [List.all_eq_true] at h3
        push_neg at h3
        obtain ⟨x, hx, hb⟩ := h3
        simp at hb
        exact ⟨x, hx, by omega⟩

/-- C10: if the backward start search locates the most recently started
instance and that instance's end boundary is at or before the instant
(the instant lies at or past the end of the most recently started
window), then the time since the last start strictly exceeds the time
since the last end: the located last start boundary strictly precedes the
located last end boundary. -/
theorem c10_last_start_precedes_last_end (ps : PeriodSchedule) (t ds : Int)
    (h1 : last_start_day ps t = some ds)
    (h2 : endBoundary ps ds ≤ t) :
    ∃ a b, duration_since_last_start_datetime ps t = some a ∧
      duration_since_last_end_datetime ps t = some b ∧ b < a := by
  have h1' := h1
  unfold last_start_day at h1'
  obtain ⟨j, hj, hds, hpds, hmin⟩ := findDay_first_of_eq_some _ _ _ _ _ h1'
  simp only [decide_eq_true_eq] at hpds
  have hEmin : ∀ i : Nat, i < j →
      (fun d => decide (weekday d ∈ ps.valid_days_of_week ∧ endBoundary ps d ≤ t))
        (dateOf t + (i : Int) * (-1)) = false := by
    intro i hi
    have hm := hmin i hi
    simp only [decide_eq_false_iff_not] at hm ⊢
    intro hAB
    have hlt := startBoundary_lt_endBoundary ps (dateOf t + (i : Int) * (-1))
    exact hm ⟨hAB.1, by omega⟩
  have hE : last_end_day ps t = some ds := by
    unfold last_end_day
    have heq := findDay_eq_some_of_first
      (fun d => decide (weekday d ∈ ps.valid_days_of_week ∧ endBoundary ps d ≤ t))
      (-1) SEARCH_FUEL (dateOf t) j hj
      (by rw [← hds]; simp only [decide_eq_true_eq]; exact ⟨hpds.1, h2⟩) hEmin
    rw [heq, ← hds]
  refine ⟨t - startBoundary ps ds, t - endBoundary ps ds, ?_, ?_, ?_⟩
  · simp [duration_since_last_start_datetime, get_last_start_datetime, h1]
  · simp [duration_since_last_end_datetime, get_last_end_datetime, hE]
  · have := startBoundary_lt_endBoundary ps ds; omega

/-- C10 witness: the 09:00 -> 17:00 all-days schedule at the instant
18:00 of epoch day 0, one hour past that day's end boundary. -/
theorem c10_last_start_precedes_last_end_witness :
    last_start_day psDay 64800 = some 0 ∧ endBoundary psDay 0 ≤ 64800 ∧
    (∃ a b, duration_since_last_start_datetime psDay 64800 = some a ∧
      duration_since_last_end_datetime psDay 64800 = some b ∧ b < a) :=
  ⟨by decide, by decide, c10_last_start_precedes_last_end psDay 64800 0 (by decide) (by decide)⟩

end Periods
